import Mathlib

/-!
Verification development for the Quanta source-to-source translator
(`index.py`): a three-stage pipeline `lexer → parser → codeGenerator`
composed by `compiler`.  Each definition below is a direct translation of
the corresponding Python function; Python's mutable front-popped token
list becomes explicit remaining-token passing, Python exceptions become
the `Except PyErr` monad (`IndexError` from indexing/popping an empty
list, `ValueError` from the lexer's invalid-character check and the
generator's unrecognized-node branch).
-/

deriving instance DecidableEq for Except

/-- Token kinds produced by `lexer` (`'type'` field of the token dict). -/
inductive TokKind where
  | keyword
  | identifier
  | number
  | string
  | operator
deriving DecidableEq, Repr

/-- A Python value stored in a token's `'value'` field: a string for
keyword/identifier/string/operator tokens, an int for number tokens. -/
inductive PyVal where
  | vStr (s : String)
  | vInt (n : Nat)
deriving DecidableEq, Repr

/-- A token dict `{'type': ..., 'value': ...}`. -/
structure Token where
  kind : TokKind
  value : PyVal
deriving DecidableEq, Repr

/-- The runtime errors the Python pipeline can raise:
`ValueError` for an invalid character in `lexer`, `IndexError` for
`tokens.pop(0)`/`tokens[0]` on an empty list in the parser, and
`ValueError` for an unrecognized node type in `codeGenerator`. -/
inductive PyErr where
  | invalidChar (c : Char) (pos : Nat)
  | indexError
  | unrecognizedNode (k : String)
deriving DecidableEq, Repr

/-- The keyword set of the language (line 37 of `index.py`). -/
def keywords : List String := ["let", "write", "if", "elif", "else", "end", "repeat"]

/-- The single-character operator set (line 67 of `index.py`). -/
def opChars : List Char := ['+', '-', '*', '/', '=', '<', '>', '&', '|']

/-- Base-10 reading of a digit run, as Python's `int(number)`. -/
def digitsToNat (l : List Char) : Nat :=
  l.foldl (fun acc c => acc * 10 + (c.toNat - 48)) 0

/-- The scanning loop of `lexer`: whitespace is skipped; an alphabetic
character starts an alphanumeric word classified as keyword or
identifier; a digit starts a number; a double quote starts a string
literal whose characters are taken verbatim up to the next double quote
(both quotes consumed; if the input ends first, the value is whatever was
read and scanning continues past the end, exactly as the Python loop
`while cursor < len(input) and input[cursor] != '"'` followed by
`cursor += 1`); an operator character becomes a one-character operator
token; anything else raises `ValueError` with the character and cursor. -/
def lexChars : List Char → Nat → Except PyErr (List Token)
  | [], _ => .ok []
  | c :: rest, pos =>
    if c.isWhitespace then
      lexChars rest (pos + 1)
    else if c.isAlpha then
      let word := c :: rest.takeWhile Char.isAlphanum
      let rest1 := rest.dropWhile Char.isAlphanum
      let w : String := String.mk word
      let tok : Token :=
        if keywords.contains w then ⟨TokKind.keyword, PyVal.vStr w⟩
        else ⟨TokKind.identifier, PyVal.vStr w⟩
      match lexChars rest1 (pos + word.length) with
      | .error e => .error e
      | .ok toks => .ok (tok :: toks)
    else if c.isDigit then
      let digits := c :: rest.takeWhile Char.isDigit
      let rest1 := rest.dropWhile Char.isDigit
      match lexChars rest1 (pos + digits.length) with
      | .error e => .error e
      | .ok toks => .ok (⟨TokKind.number, PyVal.vInt (digitsToNat digits)⟩ :: toks)
    else if c = '"' then
      let strChars := rest.takeWhile (fun ch => ch != '"')
      let rest1 := (rest.dropWhile (fun ch => ch != '"')).drop 1
      match lexChars rest1 (pos + strChars.length + 2) with
      | .error e => .error e
      | .ok toks => .ok (⟨TokKind.string, PyVal.vStr (String.mk strChars)⟩ :: toks)
    else if opChars.contains c then
      match lexChars rest (pos + 1) with
      | .error e => .error e
      | .ok toks => .ok (⟨TokKind.operator, PyVal.vStr (String.mk [c])⟩ :: toks)
    else
      .error (PyErr.invalidChar c pos)
termination_by l _ => l.length
decreasing_by
  all_goals simp_wf
  all_goals
    first
    | omega
    | (have h := (List.dropWhile_sublist (l := rest) Char.isAlphanum).length_le; omega)
    | (have h := (List.dropWhile_sublist (l := rest) Char.isDigit).length_le; omega)
    | (have h := (List.dropWhile_sublist (l := rest) (fun ch => ch != '"')).length_le;
       have h2 := List.length_drop 1 (rest.dropWhile (fun ch => ch != '"'));
       omega)

/-- `lexer(input)` from `index.py`: tokenize the whole input string. -/
def lexer (s : String) : Except PyErr (List Token) :=
  lexChars s.toList 0

/-! ### AST nodes -/

/-- The AST node dicts built by `parser` (discriminated by their `'type'`
string).  `unknown` stands for a node dict whose `'type'` is any string
outside the closed set handled by `codeGenerator`; the parser never
constructs one, which is exactly what makes the generator's defensive
`ValueError` branch unreachable. -/
inductive Stmt where
  | program (body : List Stmt)
  | declaration (name : PyVal) (value : Option String)
  | print (expression : String)
  | ifNode (test : String) (consequent : List Stmt) (alternate : Option Stmt)
  | repeatNode (count : String) (body : List Stmt)
  | block (body : List Stmt)
  | unknown (kind : String)
deriving Repr

/-! ### Expression parsing -/

/-- The textual form of one token inside an expression: string tokens are
re-quoted (`f'"{value}"'`), other tokens render as `str(value)`. -/
def renderVal : PyVal → String
  | .vStr s => s
  | .vInt n => toString n

/-- Text contributed by one token to an expression string. -/
def tokenText (t : Token) : String :=
  if t.kind = TokKind.string then "\"" ++ renderVal t.value ++ "\"" else renderVal t.value

/-- Python's `str.strip()`: remove leading and trailing whitespace. -/
def stripChars (l : List Char) : List Char :=
  ((l.dropWhile Char.isWhitespace).reverse.dropWhile Char.isWhitespace).reverse

/-- `strip` on strings, via the character list. -/
def strip (s : String) : String :=
  String.mk (stripChars s.toList)

/-- The accumulation loop of `parse_expression`: concatenate
`text-of-token + ' '` for every leading non-keyword token, and return the
remaining tokens together with a proof that none were added (needed as
the termination measure of the recursive-descent functions below). -/
def exprRaw : (ts : List Token) → String × {r : List Token // r.length ≤ ts.length}
  | [] => ("", ⟨[], Nat.le_refl 0⟩)
  | t :: rest =>
    if t.kind = TokKind.keyword then ("", ⟨t :: rest, Nat.le_refl _⟩)
    else
      match exprRaw rest with
      | (e, ⟨r, hr⟩) => (tokenText t ++ " " ++ e, ⟨r, Nat.le_succ_of_le hr⟩)

/-- `parse_expression(tokens)`: the accumulated text, stripped, plus the
tokens left over. -/
def parse_expression (ts : List Token) : String × List Token :=
  (strip (exprRaw ts).1, (exprRaw ts).2.1)

/-! ### Recursive descent parsing

The Python parser pops tokens from the front of a shared mutable list;
here every rule takes the remaining tokens and returns the tokens it did
not consume (with a length bound used for termination only). -/

/-- The `let` arm of `parse_block` (lines 116-126 of `index.py`), without
the loop continuation: `tokens.pop(0)` takes the name token (whose value
becomes the declaration's name, `IndexError` on an empty list), then
`tokens[0]` is tested for the `=` operator (`IndexError` again if the
tokens ran out); with `=` the value is `parse_expression` of the rest,
without it the value stays `None` and nothing further is consumed. -/
def parse_let : (rest : List Token) →
    Except PyErr (Stmt × {r : List Token // r.length ≤ rest.length})
  | [] => .error PyErr.indexError
  | nameTok :: rest2 =>
    match hrest2 : rest2 with
    | [] => .error PyErr.indexError
    | t2 :: rest3 =>
      if t2.kind = TokKind.operator ∧ t2.value = PyVal.vStr "=" then
        match exprRaw rest3 with
        | (raw, ⟨rest4, h4⟩) =>
          .ok (Stmt.declaration nameTok.value (some (strip raw)),
               ⟨rest4, by subst hrest2; simp only [List.length_cons]; omega⟩)
      else
        .ok (Stmt.declaration nameTok.value none,
             ⟨rest2, by subst hrest2; simp only [List.length_cons]; omega⟩)

mutual

/-- `parse_block(tokens)`: the statement loop.  A token whose value is
`'end'` is consumed and ends the block; `let`/`write`/`if`/`repeat`
keyword tokens start statements; **any other token is popped and silently
discarded**. -/
def parse_blockA : (ts : List Token) →
    Except PyErr (List Stmt × {r : List Token // r.length ≤ ts.length})
  | [] => .ok ([], ⟨[], Nat.le_refl 0⟩)
  | t :: rest =>
    if t.value = PyVal.vStr "end" then
      .ok ([], ⟨rest, Nat.le_succ rest.length⟩)
    else if t.kind = TokKind.keyword ∧ t.value = PyVal.vStr "let" then
      match parse_let rest with
      | .error e => .error e
      | .ok (decl, ⟨rest1, h1⟩) =>
        match parse_blockA rest1 with
        | .error e => .error e
        | .ok (b, ⟨r, hr⟩) =>
          .ok (decl :: b, ⟨r, by simp only [List.length_cons]; omega⟩)
    else if t.kind = TokKind.keyword ∧ t.value = PyVal.vStr "write" then
      match exprRaw rest with
      | (raw, ⟨rest1, h1⟩) =>
        match parse_blockA rest1 with
        | .error e => .error e
        | .ok (b, ⟨r, hr⟩) =>
          .ok (Stmt.print (strip raw) :: b,
               ⟨r, by simp only [List.length_cons]; omega⟩)
    else if t.kind = TokKind.keyword ∧ t.value = PyVal.vStr "if" then
      match parse_ifA rest with
      | .error e => .error e
      | .ok (node, ⟨rest1, h1⟩) =>
        match parse_blockA rest1 with
        | .error e => .error e
        | .ok (b, ⟨r, hr⟩) =>
          .ok (node :: b, ⟨r, by simp only [List.length_cons]; omega⟩)
    else if t.kind = TokKind.keyword ∧ t.value = PyVal.vStr "repeat" then
      match parse_repeatA rest with
      | .error e => .error e
      | .ok (node, ⟨rest1, h1⟩) =>
        match parse_blockA rest1 with
        | .error e => .error e
        | .ok (b, ⟨r, hr⟩) =>
          .ok (node :: b, ⟨r, by simp only [List.length_cons]; omega⟩)
    else
      match parse_blockA rest with
      | .error e => .error e
      | .ok (b, ⟨r, hr⟩) => .ok (b, ⟨r, Nat.le_succ_of_le hr⟩)
termination_by ts => 2 * ts.length
decreasing_by
  all_goals simp_wf
  all_goals (try subst_vars)
  all_goals (try simp only [List.length_cons] at *)
  all_goals omega

/-- `parse_if(tokens)`: test expression, consequent block, then — only if
the block left an `'elif'` or `'else'` token at the front — a chained
`If` or a wrapped `Block` alternate. -/
def parse_ifA (ts : List Token) :
    Except PyErr (Stmt × {r : List Token // r.length ≤ ts.length}) :=
  match exprRaw ts with
  | (raw, ⟨ts1, h1⟩) =>
    match parse_blockA ts1 with
    | .error e => .error e
    | .ok (cons, ⟨r, hr⟩) =>
      match hremain : r with
      | [] => .ok (Stmt.ifNode (strip raw) cons none, ⟨[], Nat.zero_le _⟩)
      | e1 :: r2 =>
        if e1.value = PyVal.vStr "elif" then
          match parse_ifA r2 with
          | .error err => .error err
          | .ok (alt, ⟨r3, h3⟩) =>
            .ok (Stmt.ifNode (strip raw) cons (some alt),
                 ⟨r3, by subst hremain; simp only [List.length_cons] at hr; omega⟩)
        else if e1.value = PyVal.vStr "else" then
          match parse_blockA r2 with
          | .error err => .error err
          | .ok (b2, ⟨r3, h3⟩) =>
            .ok (Stmt.ifNode (strip raw) cons (some (Stmt.block b2)),
                 ⟨r3, by subst hremain; simp only [List.length_cons] at hr; omega⟩)
        else
          .ok (Stmt.ifNode (strip raw) cons none,
               ⟨e1 :: r2, by subst hremain; omega⟩)
termination_by 2 * ts.length + 1
decreasing_by
  all_goals simp_wf
  all_goals (try subst_vars)
  all_goals (try simp only [List.length_cons] at *)
  all_goals omega

/-- `parse_repeat(tokens)`: count expression then body block. -/
def parse_repeatA (ts : List Token) :
    Except PyErr (Stmt × {r : List Token // r.length ≤ ts.length}) :=
  match exprRaw ts with
  | (raw, ⟨ts1, h1⟩) =>
    match parse_blockA ts1 with
    | .error e => .error e
    | .ok (b, ⟨r, hr⟩) =>
      .ok (Stmt.repeatNode (strip raw) b, ⟨r, Nat.le_trans hr h1⟩)
termination_by 2 * ts.length + 1
decreasing_by
  all_goals simp_wf
  all_goals (try subst_vars)
  all_goals (try simp only [List.length_cons] at *)
  all_goals omega

end

/-- `parse_block` with the termination bookkeeping stripped: the parsed
statements and the tokens left unconsumed. -/
def parse_block (ts : List Token) : Except PyErr (List Stmt × List Token) :=
  match parse_blockA ts with
  | .error e => .error e
  | .ok (b, r) => .ok (b, r.1)

/-- `parser(tokens)`: a `Program` node around the top-level block.
Whatever tokens `parse_block` leaves unconsumed are dropped, as the
Python function simply abandons the rest of its mutable list. -/
def parser (ts : List Token) : Except PyErr Stmt :=
  match parse_block ts with
  | .error e => .error e
  | .ok (b, _) => .ok (Stmt.program b)

/-! ### Code generation -/

/-- `'    ' * indent_level`. -/
def indentStr : Nat → String
  | 0 => ""
  | n + 1 => "    " ++ indentStr n

/-- The `None`-defaulting rendering of a declaration value:
`f"{node['value']}"` prints the literal text `None` when the value is
Python `None`. -/
def optValText : Option String → String
  | none => "None"
  | some s => s

/-- The `node['alternate']['type'] == 'If'` test. -/
def isIf : Stmt → Bool
  | .ifNode _ _ _ => true
  | _ => false

mutual

/-- `codeGenerator(node, indent_level)` from `index.py`.  `Program` and
`Block` join their children's renderings with newlines; `If` renders its
consequent as a fresh `Block` one level deeper, then appends
`"el" + codeGenerator(alternate, indent_level)` for an `If` alternate or
an `else:` block one level deeper otherwise; `Repeat` lowers to a
`for _ in range(int(...))` loop; an `unknown` node raises the defensive
`ValueError`. -/
def codeGenerator : Stmt → Nat → Except PyErr String
  | Stmt.program body, lvl =>
    Except.bind (genList body lvl) fun lines =>
      Except.ok (String.intercalate "\n" lines)
  | Stmt.declaration name value, lvl =>
    Except.ok (indentStr lvl ++ renderVal name ++ " = " ++ optValText value)
  | Stmt.print e, lvl =>
    Except.ok (indentStr lvl ++ "print(" ++ e ++ ")")
  | Stmt.ifNode test cons alt, lvl =>
    Except.bind (genList cons (lvl + 1)) fun lines =>
      let base := indentStr lvl ++ "if " ++ test ++ ":\n" ++
        String.intercalate "\n" lines ++ "\n" ++ indentStr lvl ++ "# end"
      match alt with
      | none => Except.ok base
      | some a =>
        if isIf a then
          Except.bind (codeGenerator a lvl) fun altCode =>
            Except.ok (base ++ "\n" ++ indentStr lvl ++ "el" ++ altCode)
        else
          Except.bind (codeGenerator a (lvl + 1)) fun altCode =>
            Except.ok (base ++ "\n" ++ indentStr lvl ++ "else:\n" ++ altCode ++
              "\n" ++ indentStr lvl ++ "# end")
  | Stmt.block body, lvl =>
    Except.bind (genList body lvl) fun lines =>
      Except.ok (String.intercalate "\n" lines)
  | Stmt.repeatNode count body, lvl =>
    Except.bind (genList body (lvl + 1)) fun lines =>
      Except.ok (indentStr lvl ++ "for _ in range(int(" ++ count ++ ")):\n" ++
        String.intercalate "\n" lines ++ "\n" ++ indentStr lvl ++ "# end")
  | Stmt.unknown k, _ => Except.error (PyErr.unrecognizedNode k)
termination_by s _ => sizeOf s

/-- The generator comprehension
`'\n'.join(codeGenerator(n, lvl) for n in body)`, with the first raised
error propagated. -/
def genList : List Stmt → Nat → Except PyErr (List String)
  | [], _ => Except.ok []
  | s :: rest, lvl =>
    Except.bind (codeGenerator s lvl) fun c =>
      Except.bind (genList rest lvl) fun cs =>
        Except.ok (c :: cs)
termination_by l _ => sizeOf l

end

/-- `compiler(input)`: `lexer`, then `parser`, then `codeGenerator` at
indent level 0; any error propagates unchanged. -/
def compiler (input : String) : Except PyErr String :=
  match lexer input with
  | .error e => .error e
  | .ok tokens =>
    match parser tokens with
    | .error e => .error e
    | .ok ast => codeGenerator ast 0


/-- Does a token value contain a whitespace character?  (Number values,
being integers, never do.) -/
def hasWS : PyVal → Bool
  | .vStr s => s.data.any Char.isWhitespace
  | .vInt _ => false

/-- Whether an `Except` computation succeeded. -/
def okE {α : Type} (x : Except PyErr α) : Bool :=
  match x with
  | .ok _ => true
  | .error _ => false

unseal lexChars parse_blockA parse_ifA parse_repeatA codeGenerator genList

/-! ### Helper lemmas -/

theorem ws_not_alnum (c : Char) (h : c.isWhitespace = true) : c.isAlphanum = false := by
  simp only [Char.isWhitespace, Bool.or_eq_true, decide_eq_true_eq] at h
  rcases h with ((h | h) | h) | h <;> subst h <;> decide

theorem alnum_not_ws (c : Char) (h : c.isAlphanum = true) : c.isWhitespace = false := by
  cases hws : c.isWhitespace
  · rfl
  · rw [ws_not_alnum c hws] at h
    exact Bool.noConfusion h

theorem op_not_ws (c : Char) (h : opChars.contains c = true) : c.isWhitespace = false := by
  have hm : c ∈ opChars := by simpa using h
  fin_cases hm <;> decide

/-! ### Claim theorems -/

/-- C1: the claim's second half holds (`"if 1 write 2 end"` compiles),
but its first half fails on the code: `parse` does **not** fail on
`"if 1"` — the tokens lex fine and the parser returns a `Program`
containing an `If` with empty consequent and absent alternate, because
`parse_block`'s loop simply stops when the tokens run out without any
missing-`end` check. -/
theorem c1_if1_parses_without_error :
    lexer "if 1" =
      Except.ok [⟨TokKind.keyword, PyVal.vStr "if"⟩, ⟨TokKind.number, PyVal.vInt 1⟩] ∧
    parser [⟨TokKind.keyword, PyVal.vStr "if"⟩, ⟨TokKind.number, PyVal.vInt 1⟩] =
      Except.ok (Stmt.program [Stmt.ifNode "1" [] none]) ∧
    compiler "if 1 write 2 end" = Except.ok "if 1:\n    print(2)\n# end" :=
  ⟨by decide, rfl, by decide⟩

/-- C2 counterexample: parsing the claim's exact token sequence does not
chain: the single `If` node has alternate `none`, and the `elif`/`else`
tokens (with the `2` after `elif`) were consumed and discarded by
`parse_block`, leaving all three `write`s in the consequent. -/
theorem c2_flat_elif_is_not_chained :
    (lexer "if 1 write 1 elif 2 write 2 else write 3 end" >>= parser) =
      Except.ok (Stmt.program
        [Stmt.ifNode "1" [Stmt.print "1", Stmt.print "2", Stmt.print "3"] none]) := rfl

/-- C2 amended: on `"if 1 write 1 elif 2 write 2 else write 3 end"` the
parser yields a single `If` whose alternate is absent and whose
consequent holds all three `Print`s (the block parser consumes and
discards `elif`, `2` and `else`); the chained `If → If → Block` shape
arises only when every branch block is closed by its own `end` before
`elif`/`else`, as in `"if 1 write 1 end elif 2 write 2 end else write 3
end"`. -/
theorem c2_chaining_requires_end_before_elif :
    (lexer "if 1 write 1 elif 2 write 2 else write 3 end" >>= parser) =
      Except.ok (Stmt.program
        [Stmt.ifNode "1" [Stmt.print "1", Stmt.print "2", Stmt.print "3"] none]) ∧
    (lexer "if 1 write 1 end elif 2 write 2 end else write 3 end" >>= parser) =
      Except.ok (Stmt.program [Stmt.ifNode "1" [Stmt.print "1"]
        (some (Stmt.ifNode "2" [Stmt.print "2"]
          (some (Stmt.block [Stmt.print "3"]))))]) :=
  ⟨rfl, rfl⟩

/-- C3: on the unterminated string input `"abc` (opening quote, then end
of input before any closing quote), `lexer` does not fail: it returns a
string token whose value is the silently truncated text `abc`. -/
theorem c3_unterminated_string_is_truncated :
    lexer "\"abc" = Except.ok [⟨TokKind.string, PyVal.vStr "abc"⟩] := by decide

/-- C4: with the tokens of `"let"` (no identifier follows) or `"let x"`
(input ends right after the name), the parser raises `IndexError` from
`tokens.pop(0)` / `tokens[0]` on an exhausted list — a crash, not a
`ParseError`. -/
theorem c4_let_truncated_raises_index_error :
    (lexer "let" >>= parser) = Except.error PyErr.indexError ∧
    (lexer "let x" >>= parser) = Except.error PyErr.indexError :=
  ⟨rfl, rfl⟩

set_option maxRecDepth 8192 in
/-- C6: at indent level 1 the generator renders an `If` alternate of an
`If` as the line `    el    if 2:` — the `el` prefix is emitted and then
the recursive call re-emits the indent before `if`, so only at level 0
does the concatenation spell `elif 2:`.  The same malformed line appears
in full pipeline output when an if/elif chain sits inside a `repeat`
body. -/
theorem c6_elif_line_broken_at_positive_indent :
    codeGenerator
      (Stmt.ifNode "1" [Stmt.print "1"] (some (Stmt.ifNode "2" [Stmt.print "2"] none))) 1 =
      Except.ok "    if 1:\n        print(1)\n    # end\n    el    if 2:\n        print(2)\n    # end" ∧
    codeGenerator
      (Stmt.ifNode "1" [Stmt.print "1"] (some (Stmt.ifNode "2" [Stmt.print "2"] none))) 0 =
      Except.ok "if 1:\n    print(1)\n# end\nelif 2:\n    print(2)\n# end" ∧
    compiler "repeat 1 if 1 write 1 end elif 2 write 2 end end" =
      Except.ok "for _ in range(int(1)):\n    if 1:\n        print(1)\n    # end\n    el    if 2:\n        print(2)\n    # end\n# end" :=
  ⟨by decide, by decide, by decide⟩

/-- C7: `"let x end"` compiles without error to the single line
`x = None`, the documented default literal for a declaration without a
value. -/
theorem c7_declaration_defaults_to_none :
    compiler "let x end" = Except.ok "x = None" := by decide

/-- C9: an `end`-valued token at statement position is consumed and
terminates the block right there with whatever tokens follow left over;
the top-level `parser` wraps the block's statements in a `Program` and
drops every leftover token; concretely, `"write 1 end write 2"` parses
to a `Program` holding only `Print "1"` with no error. -/
theorem c9_top_level_end_discards_rest :
    (∀ (t : Token) (rest : List Token), t.value = PyVal.vStr "end" →
      parse_block (t :: rest) = Except.ok ([], rest)) ∧
    (∀ (ts : List Token) (b : List Stmt) (r : List Token),
      parse_block ts = Except.ok (b, r) → parser ts = Except.ok (Stmt.program b)) ∧
    (lexer "write 1 end write 2" >>= parser) =
      Except.ok (Stmt.program [Stmt.print "1"]) := by
  refine ⟨?_, ?_, rfl⟩
  · intro t rest h
    unfold parse_block
    rw [parse_blockA.eq_2, if_pos h]
  · intro ts b r h
    unfold parser
    rw [h]

/-- C9 witness: instantiating the first two parts at concrete inputs. -/
theorem c9_witness :
    parse_block [⟨TokKind.keyword, PyVal.vStr "end"⟩, ⟨TokKind.number, PyVal.vInt 7⟩] =
      Except.ok ([], [⟨TokKind.number, PyVal.vInt 7⟩]) ∧
    parser [⟨TokKind.keyword, PyVal.vStr "end"⟩, ⟨TokKind.number, PyVal.vInt 7⟩] =
      Except.ok (Stmt.program []) :=
  ⟨c9_top_level_end_discards_rest.1 ⟨TokKind.keyword, PyVal.vStr "end"⟩
      [⟨TokKind.number, PyVal.vInt 7⟩] (by decide),
   c9_top_level_end_discards_rest.2.1 _ [] [⟨TokKind.number, PyVal.vInt 7⟩]
      (c9_top_level_end_discards_rest.1 ⟨TokKind.keyword, PyVal.vStr "end"⟩
        [⟨TokKind.number, PyVal.vInt 7⟩] (by decide))⟩

/-- C10 counterexample: a **string** token valued `end` is not one of
the keywords `let`/`write`/`if`/`repeat`/`end`, yet at statement
position it does not get discarded with parsing continuing: because
`parse_block` compares only the token's value, the string token from
source `"end"` is consumed and terminates the block, so
`'"end" write 2'` parses to an empty `Program` — the `write 2` that
continuing would have parsed into a `Print` is dropped instead. -/
theorem c10_string_end_token_terminates_block :
    lexer "\"end\" write 2" = Except.ok
      [⟨TokKind.string, PyVal.vStr "end"⟩, ⟨TokKind.keyword, PyVal.vStr "write"⟩,
       ⟨TokKind.number, PyVal.vInt 2⟩] ∧
    parse_block
      [⟨TokKind.string, PyVal.vStr "end"⟩, ⟨TokKind.keyword, PyVal.vStr "write"⟩,
       ⟨TokKind.number, PyVal.vInt 2⟩] =
      Except.ok ([], [⟨TokKind.keyword, PyVal.vStr "write"⟩, ⟨TokKind.number, PyVal.vInt 2⟩]) ∧
    parse_block [⟨TokKind.keyword, PyVal.vStr "write"⟩, ⟨TokKind.number, PyVal.vInt 2⟩] =
      Except.ok ([Stmt.print "2"], []) ∧
    parser
      [⟨TokKind.string, PyVal.vStr "end"⟩, ⟨TokKind.keyword, PyVal.vStr "write"⟩,
       ⟨TokKind.number, PyVal.vInt 2⟩] =
      Except.ok (Stmt.program []) :=
  ⟨by decide, rfl, rfl, rfl⟩

/-- C10 amended: a statement-position token whose **value** is not the
string `end` and that is not a `let`/`write`/`if`/`repeat` keyword token
(so `elif`, `else`, numbers, identifiers, operators, and strings other
than `"end"`) is consumed, contributes no node, raises nothing, and
parsing continues on the remaining tokens; a token of any kind whose
value equals `end` — including the string token lexed from `"end"` —
instead terminates the block, because `parse_block` checks the value
only. -/
theorem c10_unmatched_statement_token_discarded :
    ∀ (t : Token) (rest : List Token),
      ¬t.value = PyVal.vStr "end" →
      ¬(t.kind = TokKind.keyword ∧ t.value = PyVal.vStr "let") →
      ¬(t.kind = TokKind.keyword ∧ t.value = PyVal.vStr "write") →
      ¬(t.kind = TokKind.keyword ∧ t.value = PyVal.vStr "if") →
      ¬(t.kind = TokKind.keyword ∧ t.value = PyVal.vStr "repeat") →
      parse_block (t :: rest) = parse_block rest ∧
      parser (t :: rest) = parser rest := by
  intro t rest hend hlet hwrite hif hrepeat
  have key : parse_block (t :: rest) = parse_block rest := by
    unfold parse_block
    rw [parse_blockA.eq_2, if_neg hend, if_neg hlet, if_neg hwrite, if_neg hif,
      if_neg hrepeat]
    cases h : parse_blockA rest with
    | error e => rfl
    | ok p =>
      rcases p with ⟨b, ⟨r, hr⟩⟩
      rfl
  refine ⟨key, ?_⟩
  unfold parser
  rw [key]

/-- C10 witness: the `elif` keyword token at statement position. -/
theorem c10_witness :
    parse_block [⟨TokKind.keyword, PyVal.vStr "elif"⟩] = parse_block [] ∧
    parser [⟨TokKind.keyword, PyVal.vStr "elif"⟩] = parser [] :=
  c10_unmatched_statement_token_discarded ⟨TokKind.keyword, PyVal.vStr "elif"⟩ []
    (by decide) (by decide) (by decide) (by decide) (by decide)

theorem ite_token_value (b : Bool) (w : String) :
    (if b = true then (⟨TokKind.keyword, PyVal.vStr w⟩ : Token)
     else ⟨TokKind.identifier, PyVal.vStr w⟩).value = PyVal.vStr w := by
  cases b <;> rfl

theorem word_no_ws (c : Char) (rest : List Char) (h : c.isAlpha = true) :
    (List.cons c (rest.takeWhile Char.isAlphanum)).any Char.isWhitespace = false := by
  rw [List.any_cons, Bool.or_eq_false_iff]
  constructor
  · exact alnum_not_ws c (by simp [Char.isAlphanum, h])
  · rw [List.any_eq_false]
    intro x hx hwx
    have hal : Char.isAlphanum x = true := List.mem_takeWhile_imp hx
    rw [alnum_not_ws x hal] at hwx
    exact Bool.noConfusion hwx

theorem lexChars_nonstring_no_ws :
    ∀ (l : List Char) (pos : Nat) (toks : List Token),
      lexChars l pos = Except.ok toks →
      ∀ t ∈ toks, t.kind ≠ TokKind.string → hasWS t.value = false := by
  intro l pos
  refine lexChars.induct
    (fun l pos => ∀ toks, lexChars l pos = Except.ok toks →
      ∀ t ∈ toks, t.kind ≠ TokKind.string → hasWS t.value = false)
    ?_ ?_ ?_ ?_ ?_ ?_ ?_ ?_ ?_ ?_ ?_ l pos
  · intro x toks hok t ht _
    rw [lexChars.eq_1] at hok
    injection hok with h
    subst h
    cases ht
  · intro c rest pos hws ih toks hok t ht hkind
    rw [lexChars.eq_2, if_pos hws] at hok
    exact ih toks hok t ht hkind
  · intro c rest pos hws halpha
    dsimp only
    intro e herr ih toks hok t ht hkind
    rw [lexChars.eq_2, if_neg hws, if_pos halpha] at hok
    simp only [herr] at hok
    exact Except.noConfusion hok
  · intro c rest pos hws halpha
    dsimp only
    intro toks1 hok1 ih toks hok t ht hkind
    rw [lexChars.eq_2, if_neg hws, if_pos halpha] at hok
    simp only [hok1] at hok
    injection hok with h
    subst h
    rcases List.mem_cons.mp ht with rfl | htail
    · rw [ite_token_value]
      exact word_no_ws c rest halpha
    · exact ih toks1 hok1 t htail hkind
  · intro c rest pos hws halpha hdig
    dsimp only
    intro e herr ih toks hok t ht hkind
    rw [lexChars.eq_2, if_neg hws, if_neg halpha, if_pos hdig] at hok
    simp only [herr] at hok
    exact Except.noConfusion hok
  · intro c rest pos hws halpha hdig
    dsimp only
    intro toks1 hok1 ih toks hok t ht hkind
    rw [lexChars.eq_2, if_neg hws, if_neg halpha, if_pos hdig] at hok
    simp only [hok1] at hok
    injection hok with h
    subst h
    rcases List.mem_cons.mp ht with rfl | htail
    · rfl
    · exact ih toks1 hok1 t htail hkind
  · intro rest pos
    dsimp only
    intro e herr hq1 hq2 hq3 ih toks hok t ht hkind
    rw [lexChars.eq_2, if_neg hq1, if_neg hq2, if_neg hq3, if_pos rfl] at hok
    simp only [herr] at hok
    exact Except.noConfusion hok
  · intro rest pos
    dsimp only
    intro toks1 hok1 hq1 hq2 hq3 ih toks hok t ht hkind
    rw [lexChars.eq_2, if_neg hq1, if_neg hq2, if_neg hq3, if_pos rfl] at hok
    simp only [hok1] at hok
    injection hok with h
    subst h
    rcases List.mem_cons.mp ht with rfl | htail
    · exact absurd rfl hkind
    · exact ih toks1 hok1 t htail hkind
  · intro c rest pos hws halpha hdig hnq hop
    intro e herr ih toks hok t ht hkind
    rw [lexChars.eq_2, if_neg hws, if_neg halpha, if_neg hdig, if_neg hnq, if_pos hop] at hok
    simp only [herr] at hok
    exact Except.noConfusion hok
  · intro c rest pos hws halpha hdig hnq hop
    intro toks1 hok1 ih toks hok t ht hkind
    rw [lexChars.eq_2, if_neg hws, if_neg halpha, if_neg hdig, if_neg hnq, if_pos hop] at hok
    simp only [hok1] at hok
    injection hok with h
    subst h
    rcases List.mem_cons.mp ht with rfl | htail
    · show (List.cons c []).any Char.isWhitespace = false
      rw [List.any_cons, List.any_nil, op_not_ws c hop]
      rfl
    · exact ih toks1 hok1 t htail hkind
  · intro c rest pos hws halpha hdig hnq hop toks hok t ht hkind
    rw [lexChars.eq_2, if_neg hws, if_neg halpha, if_neg hdig, if_neg hnq, if_neg hop] at hok
    exact Except.noConfusion hok

/-- C5 counterexample: tokenizing the five-character input `"a b"`
yields a string token whose value `a b` contains a space. -/
theorem c5_string_token_value_contains_whitespace :
    lexer "\"a b\"" = Except.ok [⟨TokKind.string, PyVal.vStr "a b"⟩] ∧
    hasWS (PyVal.vStr "a b") = true :=
  ⟨by decide, by decide⟩

/-- C5 amended: in any successful tokenization, no keyword, identifier,
number, or operator token has whitespace in its value; only string
tokens may (their value is the verbatim text between the quotes). -/
theorem c5_nonstring_tokens_have_no_whitespace :
    ∀ (s : String) (toks : List Token), lexer s = Except.ok toks →
      ∀ t ∈ toks, t.kind ≠ TokKind.string → hasWS t.value = false :=
  fun s => lexChars_nonstring_no_ws s.toList 0

/-- C5 witness: the keyword token of `"let x"` has no whitespace in its
value. -/
theorem c5_witness :
    hasWS (Token.mk TokKind.keyword (PyVal.vStr "let")).value = false :=
  c5_nonstring_tokens_have_no_whitespace "let x"
    [⟨TokKind.keyword, PyVal.vStr "let"⟩, ⟨TokKind.identifier, PyVal.vStr "x"⟩]
    (by decide) ⟨TokKind.keyword, PyVal.vStr "let"⟩ (by decide) (by decide)

theorem okE_exists {α : Type} {x : Except PyErr α} (h : okE x = true) :
    ∃ a, x = Except.ok a := by
  cases x with
  | ok a => exact ⟨a, rfl⟩
  | error e => exact Bool.noConfusion h

theorem except_bind_ok {A B : Type} (a : A) (f : A → Except PyErr B) :
    Except.bind (Except.ok a) f = f a := rfl

theorem parse_let_shape (rest : List Token) (s : Stmt)
    (rr : {r : List Token // r.length ≤ rest.length})
    (h : parse_let rest = Except.ok (s, rr)) :
    ∃ n v, s = Stmt.declaration n v := by
  rw [parse_let.eq_def] at h
  repeat' split at h
  all_goals
    first
    | exact Except.noConfusion h
    | (injection h with h1; injection h1 with ha hb; exact ⟨_, _, ha.symm⟩)

theorem gen_decl_isOk (n : PyVal) (v : Option String) (lvl : Nat) :
    okE (codeGenerator (Stmt.declaration n v) lvl) = true := by
  simp only [codeGenerator.eq_2, okE]

theorem gen_print_isOk (e : String) (lvl : Nat) :
    okE (codeGenerator (Stmt.print e) lvl) = true := by
  simp only [codeGenerator.eq_3, okE]

theorem genList_nil_isOk (lvl : Nat) : okE (genList [] lvl) = true := by
  simp only [genList.eq_1, okE]

theorem genList_cons_isOk (s : Stmt) (rest : List Stmt) (lvl : Nat)
    (h1 : okE (codeGenerator s lvl) = true)
    (h2 : okE (genList rest lvl) = true) :
    okE (genList (s :: rest) lvl) = true := by
  obtain ⟨c, hc⟩ := okE_exists h1
  obtain ⟨cs, hcs⟩ := okE_exists h2
  simp only [genList.eq_2, hc, except_bind_ok, hcs, okE]

theorem gen_block_isOk (body : List Stmt) (lvl : Nat)
    (hb : okE (genList body lvl) = true) :
    okE (codeGenerator (Stmt.block body) lvl) = true := by
  obtain ⟨lines, hlines⟩ := okE_exists hb
  simp only [codeGenerator.eq_5, hlines, except_bind_ok, okE]

theorem gen_repeat_isOk (count : String) (body : List Stmt) (lvl : Nat)
    (hb : okE (genList body (lvl + 1)) = true) :
    okE (codeGenerator (Stmt.repeatNode count body) lvl) = true := by
  obtain ⟨lines, hlines⟩ := okE_exists hb
  simp only [codeGenerator.eq_6, hlines, except_bind_ok, okE]

theorem gen_program_isOk (body : List Stmt) (lvl : Nat)
    (hb : okE (genList body lvl) = true) :
    okE (codeGenerator (Stmt.program body) lvl) = true := by
  obtain ⟨lines, hlines⟩ := okE_exists hb
  simp only [codeGenerator.eq_1, hlines, except_bind_ok, okE]

theorem gen_if_isOk (test : String) (cons : List Stmt) (alt : Option Stmt) (lvl : Nat)
    (hc : okE (genList cons (lvl + 1)) = true)
    (ha : ∀ a, alt = some a → ∀ l, okE (codeGenerator a l) = true) :
    okE (codeGenerator (Stmt.ifNode test cons alt) lvl) = true := by
  obtain ⟨lines, hlines⟩ := okE_exists hc
  cases alt with
  | none => simp only [codeGenerator.eq_4, hlines, except_bind_ok, okE]
  | some a =>
    cases hif : isIf a with
    | true =>
      obtain ⟨oa, hoa⟩ := okE_exists (ha a rfl lvl)
      rw [codeGenerator.eq_4]
      simp only [hlines, except_bind_ok]
      rw [if_pos hif]
      simp only [hoa, except_bind_ok, okE]
    | false =>
      obtain ⟨oa, hoa⟩ := okE_exists (ha a rfl (lvl + 1))
      rw [codeGenerator.eq_4]
      simp only [hlines, except_bind_ok]
      rw [if_neg (by simp [hif])]
      simp only [hoa, except_bind_ok, okE]

theorem parse_gen_total :
    ∀ ts : List Token,
      ∀ (b : List Stmt) (rr : {r : List Token // r.length ≤ ts.length}),
        parse_blockA ts = Except.ok (b, rr) →
        ∀ lvl, okE (genList b lvl) = true := by
  intro ts0
  refine parse_blockA.induct
    (fun ts => ∀ (b : List Stmt) (rr : {r : List Token // r.length ≤ ts.length}),
      parse_blockA ts = Except.ok (b, rr) → ∀ lvl, okE (genList b lvl) = true)
    (fun ts => ∀ (s : Stmt) (rr : {r : List Token // r.length ≤ ts.length}),
      parse_repeatA ts = Except.ok (s, rr) → ∀ lvl, okE (codeGenerator s lvl) = true)
    (fun ts => ∀ (s : Stmt) (rr : {r : List Token // r.length ≤ ts.length}),
      parse_ifA ts = Except.ok (s, rr) → ∀ lvl, okE (codeGenerator s lvl) = true)
    ?_ ?_ ?_ ?_ ?_ ?_ ?_ ?_ ?_ ?_ ?_ ?_ ?_ ?_ ?_ ?_ ?_ ?_ ?_ ?_ ?_ ?_ ?_ ?_ ts0
  · -- nil
    intro b rr hok lvl
    rw [parse_blockA.eq_1] at hok
    injection hok with h1
    injection h1 with hb hrr
    subst hb
    exact genList_nil_isOk lvl
  · -- end token
    intro t rest hend b rr hok lvl
    rw [parse_blockA.eq_2, if_pos hend] at hok
    injection hok with h1
    injection h1 with hb hrr
    subst hb
    exact genList_nil_isOk lvl
  · -- let, parse_let error
    intro t rest hend hlet e3 hlet_err b rr hok lvl
    rw [parse_blockA.eq_2, if_neg hend, if_pos hlet] at hok
    simp only [hlet_err] at hok
    exact Except.noConfusion hok
  · -- let ok, block error
    intro t rest hend hlet decl rest1 h1 hlet_eq e4 hbl_err ih b rr hok lvl
    rw [parse_blockA.eq_2, if_neg hend, if_pos hlet] at hok
    simp only [hlet_eq, hbl_err] at hok
    exact Except.noConfusion hok
  · -- let ok, block ok
    intro t rest hend hlet decl rest1 h1 hlet_eq b r hr hbl_eq ih b' rr hok lvl
    have hgen := ih b ⟨r, hr⟩ hbl_eq
    rw [parse_blockA.eq_2, if_neg hend, if_pos hlet] at hok
    simp only [hlet_eq, hbl_eq] at hok
    injection hok with h2
    injection h2 with hb hrr
    subst hb
    obtain ⟨n, v, hdecl⟩ := parse_let_shape rest decl ⟨rest1, h1⟩ hlet_eq
    subst hdecl
    exact genList_cons_isOk _ _ _ (gen_decl_isOk n v lvl) (hgen lvl)
  · -- write, block error
    intro t rest hend hlet hwrite es r hr hexpr e6 hbl_err ih b rr hok lvl
    have hre : r = (exprRaw rest).2.1 := by rw [hexpr]
    subst hre
    rw [parse_blockA.eq_2, if_neg hend, if_neg hlet, if_pos hwrite] at hok
    simp only [hbl_err] at hok
    exact Except.noConfusion hok
  · -- write, block ok
    intro t rest hend hlet hwrite es r hr hexpr b r1 hr1 hbl_eq ih b' rr hok lvl
    have hgen := ih b ⟨r1, hr1⟩ hbl_eq
    have hre : r = (exprRaw rest).2.1 := by rw [hexpr]
    subst hre
    rw [parse_blockA.eq_2, if_neg hend, if_neg hlet, if_pos hwrite] at hok
    simp only [hbl_eq] at hok
    injection hok with h2
    injection h2 with hb hrr
    subst hb
    exact genList_cons_isOk _ _ _ (gen_print_isOk _ lvl) (hgen lvl)
  · -- if, parse_ifA error
    intro t rest hend hlet hwrite hif e8 hifA_err ih3 b rr hok lvl
    rw [parse_blockA.eq_2, if_neg hend, if_neg hlet, if_neg hwrite, if_pos hif] at hok
    simp only [hifA_err] at hok
    exact Except.noConfusion hok
  · -- if ok, block error
    intro t rest hend hlet hwrite hif node rest1 h1 hifA_eq e9 hbl_err ih3 ih1 b rr hok lvl
    rw [parse_blockA.eq_2, if_neg hend, if_neg hlet, if_neg hwrite, if_pos hif] at hok
    simp only [hifA_eq, hbl_err] at hok
    exact Except.noConfusion hok
  · -- if ok, block ok
    intro t rest hend hlet hwrite hif node rest1 h1 hifA_eq b r hr hbl_eq ih3 ih1 b' rr hok lvl
    have hgen := ih1 b ⟨r, hr⟩ hbl_eq
    rw [parse_blockA.eq_2, if_neg hend, if_neg hlet, if_neg hwrite, if_pos hif] at hok
    simp only [hifA_eq, hbl_eq] at hok
    injection hok with h2
    injection h2 with hb hrr
    subst hb
    exact genList_cons_isOk _ _ _ (ih3 node ⟨rest1, h1⟩ hifA_eq lvl) (hgen lvl)
  · -- repeat, parse_repeatA error
    intro t rest hend hlet hwrite hif hrep e11 hrep_err ih2 b rr hok lvl
    rw [parse_blockA.eq_2, if_neg hend, if_neg hlet, if_neg hwrite, if_neg hif,
      if_pos hrep] at hok
    simp only [hrep_err] at hok
    exact Except.noConfusion hok
  · -- repeat ok, block error
    intro t rest hend hlet hwrite hif hrep node rest1 h1 hrep_eq e12 hbl_err ih2 ih1 b rr hok lvl
    rw [parse_blockA.eq_2, if_neg hend, if_neg hlet, if_neg hwrite, if_neg hif,
      if_pos hrep] at hok
    simp only [hrep_eq, hbl_err] at hok
    exact Except.noConfusion hok
  · -- repeat ok, block ok
    intro t rest hend hlet hwrite hif hrep node rest1 h1 hrep_eq b r hr hbl_eq ih2 ih1 b' rr hok lvl
    have hgen := ih1 b ⟨r, hr⟩ hbl_eq
    rw [parse_blockA.eq_2, if_neg hend, if_neg hlet, if_neg hwrite, if_neg hif,
      if_pos hrep] at hok
    simp only [hrep_eq, hbl_eq] at hok
    injection hok with h2
    injection h2 with hb hrr
    subst hb
    exact genList_cons_isOk _ _ _ (ih2 node ⟨rest1, h1⟩ hrep_eq lvl) (hgen lvl)
  · -- discarded token, block error
    intro t rest hend hlet hwrite hif hrep e14 hbl_err ih b rr hok lvl
    rw [parse_blockA.eq_2, if_neg hend, if_neg hlet, if_neg hwrite, if_neg hif,
      if_neg hrep] at hok
    simp only [hbl_err] at hok
    exact Except.noConfusion hok
  · -- discarded token, block ok
    intro t rest hend hlet hwrite hif hrep b r hr hbl_eq ih b' rr hok lvl
    have hgen := ih b ⟨r, hr⟩ hbl_eq
    rw [parse_blockA.eq_2, if_neg hend, if_neg hlet, if_neg hwrite, if_neg hif,
      if_neg hrep] at hok
    simp only [hbl_eq] at hok
    injection hok with h2
    injection h2 with hb hrr
    subst hb
    exact hgen lvl
  · -- parse_repeatA, block error
    intro ts es r hr hexpr e16 hbl_err ih1 s rr hok lvl
    have hre : r = (exprRaw ts).2.1 := by rw [hexpr]
    subst hre
    rw [parse_repeatA.eq_def] at hok
    simp only [hbl_err] at hok
    exact Except.noConfusion hok
  · -- parse_repeatA, block ok
    intro ts es r hr hexpr b r1 hr1 hbl_eq ih1 s rr hok lvl
    have hgen := ih1 b ⟨r1, hr1⟩ hbl_eq
    have hre : r = (exprRaw ts).2.1 := by rw [hexpr]
    subst hre
    rw [parse_repeatA.eq_def] at hok
    simp only [hbl_eq] at hok
    injection hok with h2
    injection h2 with hs hrr
    subst hs
    exact gen_repeat_isOk _ _ lvl (hgen (lvl + 1))
  · -- parse_ifA, block error
    intro ts es r hr hexpr e18 hbl_err ih1 s rr hok lvl
    have hre : r = (exprRaw ts).2.1 := by rw [hexpr]
    subst hre
    rw [parse_ifA.eq_def] at hok
    simp only [hbl_err] at hok
    exact Except.noConfusion hok
  · -- parse_ifA, remainder empty
    intro ts es r hr hexpr b hlen0 hr0 hbl_eq ih1 s rr hok lvl
    have hgen := ih1 b ⟨[], hr0⟩ hbl_eq
    have hre : r = (exprRaw ts).2.1 := by rw [hexpr]
    subst hre
    rw [parse_ifA.eq_def] at hok
    simp only [hbl_eq] at hok
    injection hok with h2
    injection h2 with hs hrr
    subst hs
    refine gen_if_isOk _ _ _ lvl (hgen (lvl + 1)) ?_
    intro a ha
    exact Option.noConfusion ha
  · -- parse_ifA, elif, recursive error
    intro ts es r hr hexpr b e1 r2 hlen helif e20 hifA_err hrB hbl_eq ih1 ih32 s rr hok lvl
    have hre : r = (exprRaw ts).2.1 := by rw [hexpr]
    subst hre
    rw [parse_ifA.eq_def] at hok
    simp only [hbl_eq] at hok
    rw [if_pos helif] at hok
    simp only [hifA_err] at hok
    exact Except.noConfusion hok
  · -- parse_ifA, elif, recursive ok
    intro ts es r hr hexpr b e1 r2 hlen helif alt rest1 h1 hifA_eq hrB hbl_eq ih1 ih32 s rr hok lvl
    have hgen := ih1 b ⟨e1 :: r2, hrB⟩ hbl_eq
    have hre : r = (exprRaw ts).2.1 := by rw [hexpr]
    subst hre
    rw [parse_ifA.eq_def] at hok
    simp only [hbl_eq] at hok
    rw [if_pos helif] at hok
    simp only [hifA_eq] at hok
    injection hok with h2
    injection h2 with hs hrr
    subst hs
    refine gen_if_isOk _ _ _ lvl (hgen (lvl + 1)) ?_
    intro a ha l
    injection ha with ha2
    subst ha2
    exact ih32 _ ⟨rest1, h1⟩ hifA_eq l
  · -- parse_ifA, else, block error
    intro ts es r hr hexpr b e1 r2 hlen helifn helse e22 hbl2_err hrB hbl_eq ih1 ih12 s rr hok lvl
    have hre : r = (exprRaw ts).2.1 := by rw [hexpr]
    subst hre
    rw [parse_ifA.eq_def] at hok
    simp only [hbl_eq] at hok
    rw [if_neg helifn, if_pos helse] at hok
    simp only [hbl2_err] at hok
    exact Except.noConfusion hok
  · -- parse_ifA, else, block ok
    intro ts es r hr hexpr b e1 r2 hlen helifn helse b2 r1 hr1 hbl2_eq hrB hbl_eq ih1 ih12 s rr hok lvl
    have hgen := ih1 b ⟨e1 :: r2, hrB⟩ hbl_eq
    have hgen2 := ih12 b2 ⟨r1, hr1⟩ hbl2_eq
    have hre : r = (exprRaw ts).2.1 := by rw [hexpr]
    subst hre
    rw [parse_ifA.eq_def] at hok
    simp only [hbl_eq] at hok
    rw [if_neg helifn, if_pos helse] at hok
    simp only [hbl2_eq] at hok
    injection hok with h2
    injection h2 with hs hrr
    subst hs
    refine gen_if_isOk _ _ _ lvl (hgen (lvl + 1)) ?_
    intro a ha l
    injection ha with ha2
    subst ha2
    exact gen_block_isOk b2 l (hgen2 l)
  · -- parse_ifA, neither elif nor else
    intro ts es r hr hexpr b e1 r2 hlen helifn helsen hrB hbl_eq ih1 s rr hok lvl
    have hgen := ih1 b ⟨e1 :: r2, hrB⟩ hbl_eq
    have hre : r = (exprRaw ts).2.1 := by rw [hexpr]
    subst hre
    rw [parse_ifA.eq_def] at hok
    simp only [hbl_eq] at hok
    rw [if_neg helifn, if_neg helsen] at hok
    injection hok with h2
    injection h2 with hs hrr
    subst hs
    refine gen_if_isOk _ _ _ lvl (hgen (lvl + 1)) ?_
    intro a ha
    exact Option.noConfusion ha

/-- C8: the code generator is total on parser output — for every token
sequence the parser accepts, generation at any indent level returns a
string; the defensive unrecognized-node branch is unreachable because
the parser only builds `Program`, `Declaration`, `Print`, `If`, `Repeat`
and `Block` nodes. -/
theorem c8_generator_total_on_parser_output :
    ∀ (ts : List Token) (prog : Stmt), parser ts = Except.ok prog →
      ∀ lvl, ∃ out, codeGenerator prog lvl = Except.ok out := by
  intro ts prog hp lvl
  unfold parser parse_block at hp
  cases hA : parse_blockA ts with
  | error e =>
    simp only [hA] at hp
    exact Except.noConfusion hp
  | ok p =>
    rcases p with ⟨b, rr⟩
    simp only [hA] at hp
    injection hp with h1
    subst h1
    have h := parse_gen_total ts b rr hA lvl
    obtain ⟨lines, hlines⟩ := okE_exists h
    refine ⟨String.intercalate "\n" lines, ?_⟩
    simp only [codeGenerator.eq_1, hlines, except_bind_ok]

/-- C8 witness: the parser output for the tokens of `"write 1"`
generates successfully at indent level 0. -/
theorem c8_witness :
    ∃ out, codeGenerator (Stmt.program [Stmt.print "1"]) 0 = Except.ok out :=
  c8_generator_total_on_parser_output
    [⟨TokKind.keyword, PyVal.vStr "write"⟩, ⟨TokKind.number, PyVal.vInt 1⟩]
    (Stmt.program [Stmt.print "1"]) rfl 0
